import Mathlib

/-!
Verification of the PromptCCD training orchestration module
(`models/promptccd_training_w_gmp.py`) against its natural-language
specification.  The Python module is shallowly embedded below: pure
computations become Lean functions, float scalars are modelled by `ℝ`
(or `ℚ` where only ordering matters and the spec's examples must be
decidable), tensors become lists or index functions, and code that can
raise exceptions returns `Except String _`.
-/

namespace PromptCCD

/-! ## Shared list helpers

`booleanMask xs m b` models the PyTorch boolean-mask indexing
`xs[m == b]` (for `b = true` this is `xs[m]`, for `b = false` it is
`xs[~m]`): it keeps, in order, the entries of `xs` whose corresponding
mask entry equals `b`. -/

def booleanMask {α : Type} (xs : List α) (m : List Bool) (b : Bool) : List α :=
  ((xs.zip m).filter (fun p => p.2 == b)).map Prod.fst

/-- Indices (in increasing order) at which the mask equals `b`. -/
def idxWhere (m : List Bool) (b : Bool) : List ℕ :=
  (List.range m.length).filter (fun i => m.getD i (!b) == b)

theorem booleanMask_nil {α : Type} (m : List Bool) (b : Bool) :
    booleanMask ([] : List α) m b = [] := by
  cases m <;> rfl

theorem idxWhere_cons (x : Bool) (m : List Bool) (b : Bool) :
    idxWhere (x :: m) b =
      (if x == b then [0] else []) ++ (idxWhere m b).map Nat.succ := by
  unfold idxWhere
  rw [List.length_cons, List.range_succ_eq_map]
  simp only [List.filter_cons, List.getD_cons_zero, List.filter_map,
    List.getD_cons_succ]
  cases x <;> cases b <;>
    · simp [List.filter_map, Function.comp]
      congr 1
      apply List.filter_congr
      intro i _
      simp [List.getElem?_cons_succ, Function.comp]

/-- Characterization of boolean-mask selection through index lists:
selecting with a mask is the same as reading off the entries at the
mask's `b`-positions. -/
theorem booleanMask_eq_map_idxWhere {α : Type} (d : α) :
    ∀ (m : List Bool) (xs : List α), xs.length = m.length → ∀ b,
      booleanMask xs m b = (idxWhere m b).map (fun i => xs.getD i d) := by
  intro m
  induction m with
  | nil =>
      intro xs h b
      have : xs = [] := List.length_eq_zero.mp h
      subst this; rfl
  | cons x m ih =>
      intro xs h b
      cases xs with
      | nil => simp at h
      | cons y ys =>
          have hlen : ys.length = m.length := by simpa using h
          rw [idxWhere_cons]
          have hrec := ih ys hlen b
          unfold booleanMask at hrec ⊢
          simp only [List.zip_cons_cons, List.filter_cons]
          cases hxb : (x == b) with
          | true =>
              simp only [hxb, if_true, List.map_cons, List.map_append,
                List.map_map]
              rw [hrec]
              simp [List.map_map, Function.comp, List.getD_cons_succ,
                List.getD_cons_zero]
          | false =>
              simp only [hxb, Bool.false_eq_true, if_false, List.map_append,
                List.map_map]
              rw [hrec]
              simp [List.map_map, Function.comp, List.getD_cons_succ]

/-! ## C1 — mixture component count K (lines 36–38)

`K = int(args.labelled_data + (stage_i * ((args.classes - args.labelled_data) // args.n_stage)))`
followed by `if args.set_k_half: K //= 2`.  Class counts and stage
indices are natural numbers, and Python `//` on naturals is `Nat.div`. -/

def computeK (labelled_data classes n_stage stage_i : ℕ) (set_k_half : Bool) : ℕ :=
  let K := labelled_data + stage_i * ((classes - labelled_data) / n_stage)
  if set_k_half then K / 2 else K

/-- Modelled from the spec: the spec's formula
`K = labelled_class_count + stage_index * (total_class_count - labelled_class_count) / n_stage`
divides the product `stage_index * (total - labelled)` by `n_stage`. -/
def computeKBySpecFormula (labelled_data classes n_stage stage_i : ℕ)
    (set_k_half : Bool) : ℕ :=
  let K := labelled_data + stage_i * (classes - labelled_data) / n_stage
  if set_k_half then K / 2 else K

/-- C1 (counterexample): the spec's formula, which divides the product
`stage_index * (total - labelled)` by `n_stage`, disagrees with the code
(which divides `(classes - labelled)` by `n_stage` before multiplying by
`stage_i`) at the concrete configuration `labelled_data = 50`,
`classes = 103`, `n_stage = 5`, `stage_i = 2`: the code yields `K = 70`
while the spec formula yields `71`. -/
theorem computeK_product_division_counterexample :
    computeK 50 103 5 2 false = 70 ∧
    computeKBySpecFormula 50 103 5 2 false = 71 ∧
    computeK 50 103 5 2 false ≠ computeKBySpecFormula 50 103 5 2 false := by
  refine ⟨by decide, by decide, by decide⟩

/-- C1 (amended): the lifecycle manager computes
`K = labelled_class_count + stage_index * ((total_class_count - labelled_class_count) / n_stage)`
(integer division applied before the multiplication) and halves `K` by
integer division when the halve-K flag is set; this agrees with the
spec's formula whenever `n_stage` divides `total - labelled`, and in
particular for `labelled_data = 50`, `classes = 100`, `n_stage = 5`,
`stage_i = 2` it gives `K = 70`, and `K = 35` with `set_k_half = true`. -/
theorem computeK_amended :
    (∀ labelled classes n_stage stage_i : ℕ, ∀ half : Bool,
        n_stage ∣ (classes - labelled) →
        computeK labelled classes n_stage stage_i half =
          computeKBySpecFormula labelled classes n_stage stage_i half) ∧
    computeK 50 100 5 2 false = 70 ∧ computeK 50 100 5 2 true = 35 := by
  refine ⟨?_, by decide, by decide⟩
  intro labelled classes n_stage stage_i half hdvd
  unfold computeK computeKBySpecFormula
  rw [Nat.mul_div_assoc stage_i hdvd]

/-- C1 witness: the divisibility hypothesis of the amended claim holds at
the spec's own example configuration, where both formulas give `70`. -/
theorem computeK_amended_witness :
    (5 : ℕ) ∣ (100 - 50) ∧
    computeK 50 100 5 2 false = computeKBySpecFormula 50 100 5 2 false :=
  ⟨by decide, computeK_amended.1 50 100 5 2 false (by decide)⟩

/-! ## C2 — checkpoint file paths (lines 34–35, 40, 146–151)

Each checkpoint is written/read at
`os.path.join(save_path, 'model', fname)`.  The file names come from
the f-strings in `fit` (latest and best checkpoints) and `__init__`
(restore of the previous stage's best checkpoint). -/

def modelDir (save_path : String) : String := save_path ++ "/model"

def joinPath (dir fname : String) : String := dir ++ "/" ++ fname

/-- Line 146: latest backbone checkpoint name. -/
def latestModelFile (m : String) (i : ℕ) : String :=
  m ++ "_stage_" ++ toString i ++ "_model.pt"

/-- Line 147: latest projection-head checkpoint name. -/
def latestProjHeadFile (m : String) (i : ℕ) : String :=
  m ++ "_stage_" ++ toString i ++ "_model_proj_head.pt"

/-- Line 150: best backbone checkpoint name. -/
def bestModelFile (m : String) (i : ℕ) : String :=
  m ++ "_stage_" ++ toString i ++ "_model_best.pt"

/-- Line 151: best projection-head checkpoint name. -/
def bestProjHeadFile (m : String) (i : ℕ) : String :=
  m ++ "_stage_" ++ toString i ++ "_proj_head_best.pt"

/-- Line 34: backbone checkpoint name read when entering stage `stage_i`
with a previous model. -/
def loadModelFile (m : String) (stage_i : ℕ) : String :=
  m ++ "_stage_" ++ toString (stage_i - 1) ++ "_model_best.pt"

/-- Line 35: projection-head checkpoint name read when entering stage
`stage_i` with a previous model. -/
def loadProjHeadFile (m : String) (stage_i : ℕ) : String :=
  m ++ "_stage_" ++ toString (stage_i - 1) ++ "_proj_head_best.pt"

/-- Modelled from the spec: the checkpoint-store naming convention
`save_path/model/(model_name)_stage_(i)_(model or model_proj_head)(optional _best).(ext)`. -/
def conventionFile (m : String) (i : ℕ) (part : String) (best : Bool)
    (ext : String) : String :=
  m ++ "_stage_" ++ toString i ++ "_" ++ part ++
    (if best then "_best" else "") ++ "." ++ ext

/-- Modelled from the spec: the four file names the convention generates
for model name `m` and stage `i` (latest and best, for the backbone part
`model` and the projection-head part `model_proj_head`). -/
def conventionFiles (m : String) (i : ℕ) : List String :=
  [conventionFile m i "model" false "pt",
   conventionFile m i "model" true "pt",
   conventionFile m i "model_proj_head" false "pt",
   conventionFile m i "model_proj_head" true "pt"]

/-- C2 (counterexample): the best projection-head checkpoint written by
the code, e.g. `vit_stage_1_proj_head_best.pt` for model name `vit` at
stage 1, is not one of the four names the spec's convention generates
for that model and stage; in particular it differs from
`vit_stage_1_model_proj_head_best.pt`, the name obtained by appending
`_best` before the extension of the latest projection-head name. -/
theorem checkpoint_convention_counterexample :
    bestProjHeadFile "vit" 1 = "vit_stage_1_proj_head_best.pt" ∧
    bestProjHeadFile "vit" 1 ∉ conventionFiles "vit" 1 ∧
    bestProjHeadFile "vit" 1 ≠ "vit_stage_1_model_proj_head_best.pt" := by
  refine ⟨by decide, by decide, by decide⟩

theorem string_append_assoc (a b c : String) : a ++ b ++ c = a ++ (b ++ c) := by
  apply String.ext
  simp [String.data_append]

theorem string_length_append (a b : String) :
    (a ++ b).length = a.length + b.length :=
  String.length_append a b

/-- C2 (amended): all checkpoint files written and read by the program
follow the spec's convention except the best projection-head checkpoint,
which the code names `..._stage_(i)_proj_head_best.pt` (dropping the
`model_` infix the convention would produce): the latest names and the
best backbone name match the convention, the best backbone name is the
latest backbone name with `_best` appended before the extension, and the
lifecycle manager at stage `i` reads exactly the best-named files of
stage `i - 1` as the code writes them.  All files live in the directory
`save_path ++ "/model"`. -/
theorem checkpoint_paths_amended (m save : String) (i : ℕ) :
    latestModelFile m i = conventionFile m i "model" false "pt" ∧
    latestProjHeadFile m i = conventionFile m i "model_proj_head" false "pt" ∧
    bestModelFile m i = conventionFile m i "model" true "pt" ∧
    bestProjHeadFile m i =
      m ++ "_stage_" ++ toString i ++ "_proj_head_best.pt" ∧
    loadModelFile m i = bestModelFile m (i - 1) ∧
    loadProjHeadFile m i = bestProjHeadFile m (i - 1) ∧
    joinPath (modelDir save) (latestModelFile m i) =
      save ++ "/model" ++ "/" ++ latestModelFile m i := by
  refine ⟨?_, ?_, ?_, rfl, rfl, rfl, rfl⟩ <;>
    · simp only [latestModelFile, latestProjHeadFile, bestModelFile,
        conventionFile, string_append_assoc]
      congr 1

/-! ## C4 / C10 — evaluation gates and best-checkpoint writes
(lines 57, 132–152)

`best_test_acc_lab` starts at `0`; at each evaluation gate the latest
checkpoints are always written, and the best checkpoints are written iff
`old_acc_test > best_test_acc_lab`, after which the tracker is updated.
Accuracies (Python floats) are modelled as rationals so that the spec's
numeric examples are decidable. -/

def gateWritesAux (best : ℚ) : List ℚ → List Bool
  | [] => []
  | a :: rest =>
      decide (best < a) :: gateWritesAux (if best < a then a else best) rest

/-- Per-gate best-checkpoint write flags of one stage, with the tracker
initialized to `0` (line 57). -/
def gateWrites (accs : List ℚ) : List Bool := gateWritesAux 0 accs

/-- Tracker value after a sequence of gates, starting from `best`. -/
def gateBestAux (best : ℚ) (accs : List ℚ) : ℚ :=
  accs.foldl (fun b a => if b < a then a else b) best

def gateBest (accs : List ℚ) : ℚ := gateBestAux 0 accs

theorem gate_ite_eq_max (b a : ℚ) : (if b < a then a else b) = max b a := by
  rcases lt_or_le b a with h | h
  · rw [if_pos h, max_eq_right h.le]
  · rw [if_neg (not_lt_of_le h), max_eq_left h]

theorem gateBestAux_eq_foldl_max (accs : List ℚ) (best : ℚ) :
    gateBestAux best accs = accs.foldl max best := by
  unfold gateBestAux
  simp only [gate_ite_eq_max]

theorem gateWritesAux_getD (accs : List ℚ) :
    ∀ (best : ℚ) (i : ℕ), i < accs.length →
      (gateWritesAux best accs).getD i false =
        decide ((accs.take i).foldl max best < accs.getD i 0) := by
  induction accs with
  | nil => intro best i h; simp at h
  | cons a rest ih =>
      intro best i h
      cases i with
      | zero => simp [gateWritesAux]
      | succ i =>
          have hi : i < rest.length := by simpa using h
          simp only [gateWritesAux, List.getD_cons_succ, List.take_succ_cons,
            List.foldl_cons, gate_ite_eq_max]
          exact ih (max best a) i hi

theorem foldl_max_le_foldl_max_append (l t : List ℚ) (b : ℚ) :
    l.foldl max b ≤ (l ++ t).foldl max b := by
  induction t generalizing l b with
  | nil => simp
  | cons x t ih =>
      calc l.foldl max b ≤ (l ++ [x]).foldl max b := by
            simp [List.foldl_append, le_max_iff]
        _ ≤ ((l ++ [x]) ++ t).foldl max b := ih (l ++ [x]) b
        _ = (l ++ x :: t).foldl max b := by simp

/-- C4: the best-accuracy tracker starts at `0`; the best checkpoint is
written at a gate iff that gate's old-class accuracy strictly exceeds
the running best (the maximum of `0` and all earlier gate accuracies),
so writes happen exactly at the strictly-increasing-maximum steps; the
tracker is monotonically non-decreasing across gates; and on the spec's
example sequence `[0.1, 0.05, 0.3, 0.2, 0.4]` the writes happen exactly
at the first, third and fifth gates. -/
theorem best_checkpoint_writes_iff_running_max (accs : List ℚ) (i j : ℕ)
    (hi : i < accs.length) (hij : i ≤ j) :
    ((gateWrites accs).getD i false =
        decide ((accs.take i).foldl max 0 < accs.getD i 0)) ∧
    gateBest (accs.take i) ≤ gateBest (accs.take j) ∧
    gateWrites [1/10, 1/20, 3/10, 2/10, 4/10] =
      [true, false, true, false, true] := by
  refine ⟨gateWritesAux_getD accs 0 i hi, ?_, ?_⟩
  case refine_2 =>
    norm_num [gateWrites, gateWritesAux]
  rw [gateBest, gateBest, gateBestAux_eq_foldl_max, gateBestAux_eq_foldl_max]
  have h1 : accs.take i = (accs.take j).take i := by
    rw [List.take_take, min_eq_left hij]
  rw [h1]
  have h2 := foldl_max_le_foldl_max_append ((accs.take j).take i)
    ((accs.take j).drop i) 0
  rwa [List.take_append_drop] at h2

/-- C4 witness: on the spec's example sequence, the third gate
(accuracy `0.3`) strictly exceeds the running maximum of the first two
gates, and the write flags are exactly `[t, f, t, f, t]`. -/
theorem best_checkpoint_writes_iff_running_max_witness :
    (2 : ℕ) < ([1/10, 1/20, 3/10, 2/10, 4/10] : List ℚ).length ∧ (2 : ℕ) ≤ 4 ∧
    ((gateWrites [1/10, 1/20, 3/10, 2/10, 4/10]).getD 2 false =
        decide ((([1/10, 1/20, 3/10, 2/10, 4/10] : List ℚ).take 2).foldl max 0 <
          ([1/10, 1/20, 3/10, 2/10, 4/10] : List ℚ).getD 2 0)) ∧
    gateBest (([1/10, 1/20, 3/10, 2/10, 4/10] : List ℚ).take 2) ≤
      gateBest (([1/10, 1/20, 3/10, 2/10, 4/10] : List ℚ).take 4) :=
  ⟨by decide, by decide,
    (best_checkpoint_writes_iff_running_max
      [1/10, 1/20, 3/10, 2/10, 4/10] 2 4 (by decide) (by decide)).1,
    (best_checkpoint_writes_iff_running_max
      [1/10, 1/20, 3/10, 2/10, 4/10] 2 4 (by decide) (by decide)).2.1⟩

/-- Checkpoint file paths written at the evaluation gates of `fit` for
one stage (lines 132–152): at every gate the two latest checkpoints are
written, and the two best checkpoints are written exactly when the
gate's accuracy strictly exceeds the running best. -/
def gateFilesAux (save m : String) (i : ℕ) (best : ℚ) :
    List ℚ → List String
  | [] => []
  | a :: rest =>
      [joinPath (modelDir save) (latestModelFile m i),
       joinPath (modelDir save) (latestProjHeadFile m i)] ++
      (if best < a then
        [joinPath (modelDir save) (bestModelFile m i),
         joinPath (modelDir save) (bestProjHeadFile m i)]
       else []) ++
      gateFilesAux save m i (if best < a then a else best) rest

def gateFiles (save m : String) (i : ℕ) (accs : List ℚ) : List String :=
  gateFilesAux save m i 0 accs

/-- Restore performed by `__init__` at entry to stage `stage_i` when a
previous model exists (lines 33–35): `torch.load` each of the two best
checkpoints of stage `stage_i - 1`; a missing file is a
`FileNotFoundError`. -/
def restoreStage (fs : List String) (save m : String) (stage_i : ℕ) :
    Except String Unit :=
  if joinPath (modelDir save) (loadModelFile m stage_i) ∈ fs then
    if joinPath (modelDir save) (loadProjHeadFile m stage_i) ∈ fs then
      Except.ok ()
    else Except.error "FileNotFoundError"
  else Except.error "FileNotFoundError"

theorem gateFilesAux_of_nonpos (save m : String) (i : ℕ) (accs : List ℚ)
    (hacc : ∀ a ∈ accs, a ≤ 0) :
    gateFilesAux save m i 0 accs =
      (accs.map (fun _ =>
        [joinPath (modelDir save) (latestModelFile m i),
         joinPath (modelDir save) (latestProjHeadFile m i)])).flatten := by
  induction accs with
  | nil => rfl
  | cons a rest ih =>
      have ha : a ≤ 0 := hacc a (List.mem_cons_self a rest)
      have hnot : ¬ (0 : ℚ) < a := not_lt_of_le ha
      unfold gateFilesAux
      rw [if_neg hnot, if_neg hnot,
        ih (fun b hb => hacc b (List.mem_cons_of_mem a hb))]
      simp

theorem count_flatten_const_blocks {α β : Type} [DecidableEq α] (x : α)
    (l : List β) (blk : List α) :
    ((l.map (fun _ => blk)).flatten).count x = l.length * blk.count x := by
  induction l with
  | nil => simp
  | cons b rest ih =>
      simp only [List.map_cons, List.flatten_cons, List.count_append,
        List.length_cons, ih]
      ring

/-- C10: if every evaluation gate of a stage's `fit` returns an
old-class accuracy `≤ 0`, then neither best-checkpoint file is ever
written for that stage, even though both latest-checkpoint files are
written at every gate; consequently the next stage's restore, which
reads exactly the best-named files of this stage, fails with a
missing-file error. -/
theorem no_best_checkpoint_restore_missing (save m : String) (i : ℕ)
    (accs : List ℚ) (hacc : ∀ a ∈ accs, a ≤ 0) :
    joinPath (modelDir save) (bestModelFile m i) ∉ gateFiles save m i accs ∧
    joinPath (modelDir save) (bestProjHeadFile m i) ∉ gateFiles save m i accs ∧
    (gateFiles save m i accs).count
        (joinPath (modelDir save) (latestModelFile m i)) = accs.length ∧
    (gateFiles save m i accs).count
        (joinPath (modelDir save) (latestProjHeadFile m i)) = accs.length ∧
    restoreStage (gateFiles save m i accs) save m (i + 1) =
      Except.error "FileNotFoundError" := by
  have hbm : ∀ x ∈ gateFiles save m i accs,
      x = joinPath (modelDir save) (latestModelFile m i) ∨
      x = joinPath (modelDir save) (latestProjHeadFile m i) := by
    intro x hx
    rw [gateFiles, gateFilesAux_of_nonpos save m i accs hacc] at hx
    rcases List.mem_flatten.mp hx with ⟨l, hl, hxl⟩
    rcases List.mem_map.mp hl with ⟨a, _, rfl⟩
    simp only [List.mem_cons, List.not_mem_nil, or_false] at hxl
    exact hxl
  have hlen : ∀ s t : String, s.length ≠ t.length →
      joinPath (modelDir save) (m ++ "_stage_" ++ toString i ++ s) ≠
      joinPath (modelDir save) (m ++ "_stage_" ++ toString i ++ t) := by
    intro s t hst he
    apply hst
    have := congrArg String.length he
    simp only [joinPath, string_length_append] at this
    omega
  have hbm_ne_lm : joinPath (modelDir save) (bestModelFile m i) ≠
      joinPath (modelDir save) (latestModelFile m i) := by
    have := hlen "_model_best.pt" "_model.pt" (by decide)
    simpa [bestModelFile, latestModelFile, string_append_assoc] using this
  have hbm_ne_lp : joinPath (modelDir save) (bestModelFile m i) ≠
      joinPath (modelDir save) (latestProjHeadFile m i) := by
    have := hlen "_model_best.pt" "_model_proj_head.pt" (by decide)
    simpa [bestModelFile, latestProjHeadFile, string_append_assoc] using this
  have hbp_ne_lm : joinPath (modelDir save) (bestProjHeadFile m i) ≠
      joinPath (modelDir save) (latestModelFile m i) := by
    have := hlen "_proj_head_best.pt" "_model.pt" (by decide)
    simpa [bestProjHeadFile, latestModelFile, string_append_assoc] using this
  have hbp_ne_lp : joinPath (modelDir save) (bestProjHeadFile m i) ≠
      joinPath (modelDir save) (latestProjHeadFile m i) := by
    have := hlen "_proj_head_best.pt" "_model_proj_head.pt" (by decide)
    simpa [bestProjHeadFile, latestProjHeadFile, string_append_assoc]
      using this
  have hnm : joinPath (modelDir save) (bestModelFile m i) ∉
      gateFiles save m i accs := by
    intro hmem
    rcases hbm _ hmem with h | h
    · exact hbm_ne_lm h
    · exact hbm_ne_lp h
  have hnp : joinPath (modelDir save) (bestProjHeadFile m i) ∉
      gateFiles save m i accs := by
    intro hmem
    rcases hbm _ hmem with h | h
    · exact hbp_ne_lm h
    · exact hbp_ne_lp h
  have hlm_ne_lp : joinPath (modelDir save) (latestModelFile m i) ≠
      joinPath (modelDir save) (latestProjHeadFile m i) := by
    have := hlen "_model.pt" "_model_proj_head.pt" (by decide)
    simpa [latestModelFile, latestProjHeadFile, string_append_assoc]
      using this
  refine ⟨hnm, hnp, ?_, ?_, ?_⟩
  · rw [gateFiles, gateFilesAux_of_nonpos save m i accs hacc,
      count_flatten_const_blocks]
    have h1 : ([joinPath (modelDir save) (latestModelFile m i),
        joinPath (modelDir save) (latestProjHeadFile m i)]).count
          (joinPath (modelDir save) (latestModelFile m i)) = 1 := by
      simp [List.count_cons, hlm_ne_lp, Ne.symm hlm_ne_lp]
    rw [h1, mul_one]
  · rw [gateFiles, gateFilesAux_of_nonpos save m i accs hacc,
      count_flatten_const_blocks]
    have h1 : ([joinPath (modelDir save) (latestModelFile m i),
        joinPath (modelDir save) (latestProjHeadFile m i)]).count
          (joinPath (modelDir save) (latestProjHeadFile m i)) = 1 := by
      simp [List.count_cons, hlm_ne_lp, Ne.symm hlm_ne_lp]
    rw [h1, mul_one]
  · have hload : loadModelFile m (i + 1) = bestModelFile m i := by
      unfold loadModelFile bestModelFile
      simp
    rw [restoreStage, hload, if_neg hnm]

/-- C10 witness: for a stage whose two gates report accuracies `0` and
`-1`, the restore of the following stage fails with a missing-file
error. -/
theorem no_best_checkpoint_restore_missing_witness :
    (∀ a ∈ ([0, -1] : List ℚ), a ≤ 0) ∧
    restoreStage (gateFiles "out" "vit" 1 [0, -1]) "out" "vit" 2 =
      Except.error "FileNotFoundError" := by
  have h : ∀ a ∈ ([0, -1] : List ℚ), a ≤ 0 := by
    intro a ha
    simp only [List.mem_cons, List.not_mem_nil, or_false] at ha
    rcases ha with rfl | rfl <;> norm_num
  exact ⟨h, (no_best_checkpoint_restore_missing "out" "vit" 1 [0, -1] h).2.2.2.2⟩

/-! ## C3 — mixture refit and prediction gating (lines 58, 68–86)

Per epoch, the mixture is refit when `epoch % fit_gmm_every_n_epoch == 0`
(line 68).  Inside the batch loop, a per-sample prediction is obtained
and stored in `res` only when `epoch >= fit_gmm_every_n_epoch`
(lines 80–83); otherwise `res` keeps its previous value, which is the
initial `None` from line 58 during all earlier epochs.  The backbone
forward then receives `res` as conditioning context (line 86).  The
prediction value itself is opaque here (parameter `α`). -/

def gmmRefitEpoch (fitEvery epoch : ℕ) : Bool := epoch % fitEvery == 0

/-- One batch of the loop in `fit` (lines 80–86): the conditioning
context passed to the gradient-tracked forward call, and the value of
`res` carried to the next batch. -/
def batchContext {α : Type} (fitEvery epoch : ℕ) (res : Option α)
    (pred : α) : Option α :=
  if fitEvery ≤ epoch then some pred else res

/-- The batch loop of one epoch: returns the conditioning contexts used
at each batch (in order) and the final `res`. -/
def runBatches {α : Type} (fitEvery epoch : ℕ) :
    List α → Option α → List (Option α) × Option α
  | [], res => ([], res)
  | p :: ps, res =>
      let r := batchContext fitEvery epoch res p
      let rec_ := runBatches fitEvery epoch ps r
      (r :: rec_.1, rec_.2)

/-- The epoch loop of `fit` (the `res` thread): `predss` holds, per
epoch, the per-batch mixture predictions; the result is the conditioning
context used at every batch of every epoch, starting from `res = None`
at epoch `e0`. -/
def runEpochs {α : Type} (fitEvery : ℕ) :
    List (List α) → Option α → ℕ → List (List (Option α)) × Option α
  | [], res, _ => ([], res)
  | ps :: rest, res, e0 =>
      let er := runBatches fitEvery e0 ps res
      let rr := runEpochs fitEvery rest er.2 (e0 + 1)
      (er.1 :: rr.1, rr.2)

theorem runBatches_of_lt {α : Type} (fitEvery epoch : ℕ)
    (h : ¬ fitEvery ≤ epoch) :
    ∀ (ps : List α) (res : Option α),
      runBatches fitEvery epoch ps res = (List.replicate ps.length res, res) := by
  intro ps
  induction ps with
  | nil => intro res; rfl
  | cons p rest ih =>
      intro res
      unfold runBatches batchContext
      rw [if_neg h]
      simp [ih res, List.replicate_succ]

theorem runBatches_of_le {α : Type} (fitEvery epoch : ℕ)
    (h : fitEvery ≤ epoch) :
    ∀ (ps : List α) (res : Option α),
      (runBatches fitEvery epoch ps res).1 = ps.map some := by
  intro ps
  induction ps with
  | nil => intro res; rfl
  | cons p rest ih =>
      intro res
      unfold runBatches batchContext
      rw [if_pos h]
      simp [ih]

theorem runBatches_snd_mem {α : Type} (fitEvery epoch : ℕ)
    (ps : List α) (res : Option α) :
    (runBatches fitEvery epoch ps res).2 = res ∨
      ∃ p, (runBatches fitEvery epoch ps res).2 = some p := by
  induction ps generalizing res with
  | nil => exact Or.inl rfl
  | cons p rest ih =>
      unfold runBatches batchContext
      rcases ih (if fitEvery ≤ epoch then some p else res) with h | h
      · rw [h]
        split
        · exact Or.inr ⟨p, rfl⟩
        · exact Or.inl rfl
      · exact Or.inr h

/-- Invariant: `res` legitimately matches the gate at every epoch when
either the incoming `res` is `none` or the starting epoch is already at
or past the gate. -/
theorem runEpochs_contexts {α : Type} (fitEvery : ℕ) :
    ∀ (predss : List (List α)) (res : Option α) (e0 : ℕ),
      (res = none ∨ fitEvery ≤ e0) →
      ∀ e, e < predss.length →
        ((runEpochs fitEvery predss res e0).1.getD e []) =
          (if fitEvery ≤ e0 + e then (predss.getD e []).map some
           else List.replicate (predss.getD e []).length none) := by
  intro predss
  induction predss with
  | nil => intro res e0 _ e he; simp at he
  | cons ps rest ih =>
      intro res e0 hres e he
      cases e with
      | zero =>
          simp only [Nat.add_zero, List.getD_cons_zero]
          show (runBatches fitEvery e0 ps res).1 = _
          by_cases h : fitEvery ≤ e0
          · rw [if_pos h, runBatches_of_le fitEvery e0 h ps res]
          · have hnone : res = none := by
              rcases hres with h0 | h0
              · exact h0
              · exact absurd h0 h
            rw [if_neg h, hnone, runBatches_of_lt fitEvery e0 h ps none]
      | succ e =>
          have he' : e < rest.length := by simpa using he
          have hnext : (runBatches fitEvery e0 ps res).2 = none ∨
              fitEvery ≤ e0 + 1 := by
            by_cases h : fitEvery ≤ e0
            · exact Or.inr (le_trans h (Nat.le_succ e0))
            · rcases hres with h0 | h0
              · subst h0
                rw [runBatches_of_lt fitEvery e0 h ps none]
                exact Or.inl rfl
              · exact absurd h0 h
          have := ih (runBatches fitEvery e0 ps res).2 (e0 + 1) hnext e he'
          show ((runEpochs fitEvery rest (runBatches fitEvery e0 ps res).2
              (e0 + 1)).1.getD e []) = _
          rw [this]
          have harith : e0 + 1 + e = e0 + (e + 1) := by omega
          rw [harith]
          simp [List.getD_cons_succ]

/-- C3 (counterexample): with `fit_gmm_every_n_epoch = 2` the mixture is
refit at epoch 0 (the first refit epoch), yet at epochs 0 and 1 — which
are at or past that first refit epoch — the conditioning context passed
to the backbone forward is still `None`; only from epoch 2 on is the
prediction passed.  Run on one batch per epoch with predictions
`10, 20, 30`. -/
theorem gmm_context_first_refit_counterexample :
    gmmRefitEpoch 2 0 = true ∧
    (runEpochs 2 [[10], [20], [30]] (none : Option ℕ) 0).1 =
      [[none], [none], [some 30]] ∧
    (runEpochs 2 [[10], [20], [30]] (none : Option ℕ) 0).1 ≠
      [[some 10], [some 20], [some 30]] := by
  refine ⟨rfl, by decide, by decide⟩

/-- C3 (amended): in every batch of every epoch of `fit`, the trainer
passes the mixture prediction as conditioning context exactly when
`epoch ≥ fit_gmm_every_n_epoch`; at epochs `0 .. fit_gmm_every_n_epoch - 1`
the context passed is `None`, even though a refit occurred at epoch 0
(the refit gate `epoch % fit_gmm_every_n_epoch == 0` fires there). -/
theorem gmm_context_gate_amended {α : Type} (fitEvery : ℕ)
    (predss : List (List α)) (e : ℕ) (he : e < predss.length) :
    gmmRefitEpoch fitEvery 0 = true ∧
    ((runEpochs fitEvery predss none 0).1.getD e []) =
      (if fitEvery ≤ e then (predss.getD e []).map some
       else List.replicate (predss.getD e []).length none) := by
  constructor
  · unfold gmmRefitEpoch
    simp
  · have := runEpochs_contexts fitEvery predss none 0 (Or.inl rfl) e he
    simpa using this

/-- C3 witness: with gate 2 and three one-batch epochs, epoch 1 uses
context `None` and epoch 2 uses the prediction. -/
theorem gmm_context_gate_amended_witness :
    (1 : ℕ) < ([[10], [20], [30]] : List (List ℕ)).length ∧
    ((runEpochs 2 [[10], [20], [30]] (none : Option ℕ) 0).1.getD 1 []) =
      List.replicate 1 none :=
  ⟨by decide,
    by simpa using (gmm_context_gate_amended 2 [[10], [20], [30]] 1
      (by decide)).2⟩

/-! ## C9 — choice of contrastive-loss instances (lines 95–102)

`features.chunk(2)` splits the `2N` stacked view-features into the two
per-view halves; with `contrast_unlabel_only` the unlabelled rows
(`f[~mask_lab]`) of both halves are concatenated, otherwise all rows are
used.  The entries are opaque here (`α`), exactly as the tensor rows are
to this code. -/

def chunk2 {α : Type} (f : List α) : List α × List α :=
  (f.take (f.length / 2), f.drop (f.length / 2))

def conFeats {α : Type} (contrast_unlabel_only : Bool) (features : List α)
    (mask_lab : List Bool) : List α :=
  if contrast_unlabel_only then
    booleanMask (chunk2 features).1 mask_lab false ++
      booleanMask (chunk2 features).2 mask_lab false
  else features

theorem mem_idxWhere_lt (m : List Bool) (b : Bool) (i : ℕ)
    (h : i ∈ idxWhere m b) : i < m.length := by
  unfold idxWhere at h
  exact List.mem_range.mp (List.mem_of_mem_filter h)

/-- C9: with `contrast_unlabel_only = true` the unsupervised-contrastive
input set contains exactly the unlabelled samples of both views — first
the unlabelled rows of view 1 (positions `i` with mask `false`), then
the unlabelled rows of view 2 (positions `N + i`), in order; with the
flag `false` it is all `2N` view-instances; and on the spec's example
mask `[T,F,T,F]` it selects exactly the four unlabelled view-instances. -/
theorem contrast_unlabel_selection {α : Type} (d : α) (features : List α)
    (mask_lab : List Bool) (N : ℕ) (hf : features.length = 2 * N)
    (hm : mask_lab.length = N) :
    conFeats true features mask_lab =
      (idxWhere mask_lab false).map (fun i => features.getD i d) ++
      (idxWhere mask_lab false).map (fun i => features.getD (N + i) d) ∧
    conFeats false features mask_lab = features ∧
    conFeats true [0, 1, 2, 3, 10, 11, 12, 13]
        [true, false, true, false] = [1, 3, 11, 13] := by
  refine ⟨?_, rfl, by decide⟩
  unfold conFeats chunk2
  rw [if_pos rfl]
  have hhalf : features.length / 2 = N := by
    rw [hf]
    omega
  rw [hhalf]
  have hlt : (features.take N).length = mask_lab.length := by
    rw [List.length_take, hf, hm]
    omega
  have hld : (features.drop N).length = mask_lab.length := by
    rw [List.length_drop, hf, hm]
    omega
  rw [booleanMask_eq_map_idxWhere d mask_lab (features.take N) hlt false,
    booleanMask_eq_map_idxWhere d mask_lab (features.drop N) hld false]
  congr 1
  · apply List.map_congr_left
    intro i hi
    have hiN : i < N := hm ▸ mem_idxWhere_lt mask_lab false i hi
    have : (features.take N).getD i d = features.getD i d := by
      unfold List.getD
      rw [List.get?_eq_getElem?, List.get?_eq_getElem?,
        List.getElem?_take_of_lt hiN]
    exact this
  · apply List.map_congr_left
    intro i hi
    have : (features.drop N).getD i d = features.getD (N + i) d := by
      unfold List.getD
      rw [List.get?_eq_getElem?, List.get?_eq_getElem?, List.getElem?_drop]
    exact this

/-- C9 witness: the general selection law evaluated on the spec's
example batch `mask = [T,F,T,F]` with eight tagged view-instances. -/
theorem contrast_unlabel_selection_witness :
    ([0, 1, 2, 3, 10, 11, 12, 13] : List ℕ).length = 2 * 4 ∧
    [true, false, true, false].length = 4 ∧
    conFeats true ([0, 1, 2, 3, 10, 11, 12, 13] : List ℕ)
        [true, false, true, false] =
      (idxWhere [true, false, true, false] false).map
        (fun i => ([0, 1, 2, 3, 10, 11, 12, 13] : List ℕ).getD i 0) ++
      (idxWhere [true, false, true, false] false).map
        (fun i => ([0, 1, 2, 3, 10, 11, 12, 13] : List ℕ).getD (4 + i) 0) :=
  ⟨by decide, by decide,
    (contrast_unlabel_selection 0 [0, 1, 2, 3, 10, 11, 12, 13]
      [true, false, true, false] 4 (by decide) (by decide)).1⟩

/-! ## C5 — InfoNCE pair constructor `info_nce_logits` (lines 258–286)

Features are rows (lists) of reals; `F.normalize(features, dim=1)`
divides each row by the maximum of its L2 norm and `eps = 1e-12`; the
similarity matrix is the matrix product of the normalized rows with
their transpose.  `labels` is the view-index equality matrix built from
`torch.arange(0.5 * size)` repeated `n_views` times (for a size-`2N`
input and 2 views this is `[0..N-1, 0..N-1]`); both matrices have their
diagonal removed row-wise, each row is split into the entries at
label-`true` positions (positives) followed by the label-`false`
positions (negatives), and the result is divided by the temperature.
The targets are the all-zero index vector. -/

def dotList (u v : List ℝ) : ℝ := ((u.zip v).map (fun p => p.1 * p.2)).sum

def sumSq (v : List ℝ) : ℝ := dotList v v

noncomputable def l2normalize (v : List ℝ) : List ℝ :=
  v.map (fun x => x / max (Real.sqrt (sumSq v)) (1 / 10 ^ 12))

/-- Cosine similarity of two rows. -/
noncomputable def cosineSim (u v : List ℝ) : ℝ :=
  dotList u v / (Real.sqrt (sumSq u) * Real.sqrt (sumSq v))

/-- Lines 262–264: `torch.cat([torch.arange(0.5 * size)] * n_views)`;
`arange` of the float bound `0.5 * size` has `⌈size / 2⌉` entries. -/
def infoNceLabelVec (n_views sz : ℕ) : List ℕ :=
  (List.replicate n_views (List.range ((sz + 1) / 2))).flatten

/-- Line 263: pairwise equality matrix of the label vector. -/
def eqMat (lv : List ℕ) : List (List Bool) :=
  lv.map (fun a => lv.map (fun b => a == b))

/-- Lines 266–268: pairwise similarity matrix of the normalized rows. -/
noncomputable def simMat (features : List (List ℝ)) : List (List ℝ) :=
  (features.map l2normalize).map
    (fun u => (features.map l2normalize).map (fun w => dotList u w))

/-- Lines 271–273: remove the main diagonal from a matrix, row-wise
(`M[~eye].view(n, -1)` keeps each row in order minus its diagonal
entry). -/
def offDiag {α : Type} (M : List (List α)) : List (List α) :=
  (M.zip (List.range M.length)).map (fun ri => ri.1.eraseIdx ri.2)

/-- Lines 258–286 assembled. -/
noncomputable def infoNceLogits (temperature : ℝ) (n_views : ℕ)
    (features : List (List ℝ)) : List (List ℝ) × List ℕ :=
  let lm := offDiag (eqMat (infoNceLabelVec n_views features.length))
  let sm := offDiag (simMat features)
  let pos := (sm.zip lm).map (fun rl => booleanMask rl.1 rl.2 true)
  let neg := (sm.zip lm).map (fun rl => booleanMask rl.1 rl.2 false)
  let logits := (pos.zip neg).map
    (fun pn => (pn.1 ++ pn.2).map (fun x => x / temperature))
  (logits, List.replicate logits.length 0)

/-- Index of the other view of the same sample (2 views, `N` samples,
stacked as `[0..N-1 | 0..N-1]`). -/
def pairIdx (N i : ℕ) : ℕ := if i < N then i + N else i - N

theorem l2normalize_of_unit (v : List ℝ) (h : sumSq v = 1) :
    l2normalize v = v := by
  unfold l2normalize
  rw [h, Real.sqrt_one, max_eq_left (by norm_num : (1 : ℝ) / 10 ^ 12 ≤ 1)]
  simp

theorem cosineSim_of_unit (u v : List ℝ) (hu : sumSq u = 1)
    (hv : sumSq v = 1) : cosineSim u v = dotList u v := by
  unfold cosineSim
  rw [hu, hv, Real.sqrt_one, mul_one, div_one]

theorem map_eq_map_range {α β : Type} (d : α) (f : α → β) (xs : List α) :
    xs.map f = (List.range xs.length).map (fun j => f (xs.getD j d)) := by
  induction xs with
  | nil => rfl
  | cons x t ih =>
      simp only [List.map_cons, List.length_cons, List.range_succ_eq_map,
        List.map_map, Function.comp, List.getD_cons_zero, List.getD_cons_succ]
      rw [ih]
      congr 1

theorem eraseIdx_map {α β : Type} (f : α → β) :
    ∀ (xs : List α) (i : ℕ), (xs.map f).eraseIdx i = (xs.eraseIdx i).map f := by
  intro xs
  induction xs with
  | nil => intro i; cases i <;> rfl
  | cons x t ih =>
      intro i
      cases i with
      | zero => rfl
      | succ i =>
          simp only [List.map_cons, List.eraseIdx_cons_succ, List.map_cons]
          rw [ih i]

theorem range_eraseIdx_eq_filter (n i : ℕ) (h : i < n) :
    (List.range n).eraseIdx i = (List.range n).filter (fun j => j != i) := by
  induction n with
  | zero => simp at h
  | succ n ihn =>
      rw [List.range_succ]
      rcases Nat.lt_succ_iff_lt_or_eq.mp h with h' | rfl
      · rw [List.eraseIdx_append_of_lt_length (by simpa using h'),
          List.filter_append, ihn h']
        congr 1
        simp [Ne.symm (Nat.ne_of_lt h')]
      · rw [List.eraseIdx_append_of_length_le (by simp), List.filter_append]
        have h1 : (List.range i).filter (fun j => j != i) = List.range i := by
          apply List.filter_eq_self.mpr
          intro a ha
          simp [Nat.ne_of_lt (List.mem_range.mp ha)]
        have h2 : [i].filter (fun j => j != i) = [] := by simp
        rw [h1, h2, List.append_nil]
        simp

theorem booleanMask_map_map {α β : Type} (f : α → β) (g : α → Bool)
    (b : Bool) : ∀ (l : List α),
    booleanMask (l.map f) (l.map g) b = (l.filter (fun x => g x == b)).map f := by
  intro l
  induction l with
  | nil => rfl
  | cons x t ih =>
      unfold booleanMask at ih ⊢
      simp only [List.map_cons, List.zip_cons_cons, List.filter_cons]
      cases hx : (g x == b) with
      | true => simp [hx, ih]
      | false => simp [hx, ih]

theorem filter_range_eq_single (p : ℕ → Bool) :
    ∀ (n k : ℕ), k < n → p k = true → (∀ j, j < n → p j = true → j = k) →
      (List.range n).filter p = [k] := by
  intro n
  induction n with
  | zero => intro k h; simp at h
  | succ n ihn =>
      intro k hk hpk huniq
      rw [List.range_succ, List.filter_append]
      rcases Nat.lt_succ_iff_lt_or_eq.mp hk with h' | rfl
      · have hpn : p n = false := by
          by_contra hpn
          have := huniq n (Nat.lt_succ_self n) (by
            cases hn : p n
            · exact absurd hn hpn
            · rfl)
          omega
        have : [n].filter p = [] := by simp [hpn]
        rw [this, List.append_nil]
        exact ihn k h' hpk (fun j hj hpj => huniq j (Nat.lt_succ_of_lt hj) hpj)
      · have h1 : (List.range k).filter p = [] := by
          apply List.filter_eq_nil_iff.mpr
          intro a ha
          intro hpa
          have hak := List.mem_range.mp ha
          have := huniq a (Nat.lt_succ_of_lt hak) hpa
          omega
        rw [h1, List.nil_append]
        simp [hpk]

theorem getD_map_lt {α β : Type} (f : α → β) (l : List α) (i : ℕ)
    (h : i < l.length) (d : β) (d' : α) :
    (l.map f).getD i d = f (l.getD i d') := by
  unfold List.getD
  rw [List.get?_eq_getElem?, List.get?_eq_getElem?, List.getElem?_map,
    List.getElem?_eq_getElem h]
  simp

theorem getD_range (n j : ℕ) (h : j < n) : (List.range n).getD j 0 = j := by
  unfold List.getD
  rw [List.get?_eq_getElem?, List.getElem?_eq_getElem (by simpa using h)]
  simp

theorem infoNceLabelVec_two (N : ℕ) :
    infoNceLabelVec 2 (2 * N) = List.range N ++ List.range N := by
  unfold infoNceLabelVec
  have h : (2 * N + 1) / 2 = N := by omega
  rw [h]
  simp [List.replicate, List.flatten]

theorem lv_getD (N j : ℕ) (h : j < 2 * N) :
    (List.range N ++ List.range N).getD j 0 = if j < N then j else j - N := by
  by_cases hj : j < N
  · rw [if_pos hj]
    unfold List.getD
    rw [List.get?_eq_getElem?,
      List.getElem?_append_left (by simpa using hj)]
    rw [List.getElem?_eq_getElem (by simpa using hj)]
    simp
  · rw [if_neg hj]
    unfold List.getD
    rw [List.get?_eq_getElem?,
      List.getElem?_append_right (by simpa using Nat.le_of_not_lt hj)]
    rw [List.length_range,
      List.getElem?_eq_getElem (by simp; omega)]
    simp

theorem lv_eq_iff (N i j : ℕ) (hN : 1 ≤ N) (hi : i < 2 * N)
    (hj : j < 2 * N) :
    ((List.range N ++ List.range N).getD i 0 =
        (List.range N ++ List.range N).getD j 0) ↔
      (j = i ∨ j = pairIdx N i) := by
  rw [lv_getD N i hi, lv_getD N j hj]
  unfold pairIdx
  split_ifs <;> omega

theorem pairIdx_lt (N i : ℕ) (hi : i < 2 * N) : pairIdx N i < 2 * N := by
  unfold pairIdx
  split_ifs <;> omega

theorem pairIdx_ne (N i : ℕ) (hN : 1 ≤ N) (_hi : i < 2 * N) :
    pairIdx N i ≠ i := by
  unfold pairIdx
  split_ifs <;> omega

theorem eqMat_rows (lv : List ℕ) :
    eqMat lv = (List.range lv.length).map (fun i =>
      (List.range lv.length).map (fun j => lv.getD i 0 == lv.getD j 0)) := by
  unfold eqMat
  rw [map_eq_map_range 0]
  apply List.map_congr_left
  intro i hmem
  clear hmem
  rw [map_eq_map_range 0]

/-- Similarity between rows `i` and `j` after in-function
normalization. -/
noncomputable def rawSim (features : List (List ℝ)) (i j : ℕ) : ℝ :=
  dotList (l2normalize (features.getD i []))
    (l2normalize (features.getD j []))

theorem simMat_rows (features : List (List ℝ)) :
    simMat features = (List.range features.length).map (fun i =>
      (List.range features.length).map (fun j => rawSim features i j)) := by
  unfold simMat
  rw [map_eq_map_range ([] : List ℝ), List.length_map]
  apply List.map_congr_left
  intro i hi
  rw [map_eq_map_range ([] : List ℝ), List.length_map]
  apply List.map_congr_left
  intro j hj
  unfold rawSim
  rw [getD_map_lt l2normalize features i
      (by simpa using List.mem_range.mp hi) ([] : List ℝ) [],
    getD_map_lt l2normalize features j
      (by simpa using List.mem_range.mp hj) ([] : List ℝ) []]

theorem zip_map_range {α β : Type} (L : ℕ) (f : ℕ → α) (g : ℕ → β) :
    ((List.range L).map f).zip ((List.range L).map g) =
      (List.range L).map (fun i => (f i, g i)) :=
  List.zip_map' f g (List.range L)

theorem offDiag_map_range {α : Type} (L : ℕ) (rowF : ℕ → List α) :
    offDiag ((List.range L).map rowF) =
      (List.range L).map (fun i => (rowF i).eraseIdx i) := by
  unfold offDiag
  rw [List.length_map, List.length_range]
  nth_rewrite 2 [show List.range L = (List.range L).map id from
    (List.map_id _).symm]
  rw [List.zip_map', List.map_map]
  rfl

theorem infoNce_pos_filter (N i : ℕ) (hN : 1 ≤ N) (hi : i < 2 * N) :
    (List.range (2 * N)).filter (fun j =>
        (((List.range N ++ List.range N).getD i 0 ==
          (List.range N ++ List.range N).getD j 0) == true) && (j != i)) =
      [pairIdx N i] := by
  apply filter_range_eq_single _ _ _ (pairIdx_lt N i hi)
  · have hlv := (lv_eq_iff N i (pairIdx N i) hN hi
      (pairIdx_lt N i hi)).mpr (Or.inr rfl)
    have h1 : ((List.range N ++ List.range N).getD i 0 ==
        (List.range N ++ List.range N).getD (pairIdx N i) 0) = true :=
      beq_iff_eq.mpr hlv
    rw [h1]
    simpa using pairIdx_ne N i hN hi
  · intro j hj hpj
    simp only [Bool.and_eq_true, beq_iff_eq, bne_iff_ne, ne_eq] at hpj
    rcases hpj with ⟨hlv, hne⟩
    rcases (lv_eq_iff N i j hN hi hj).mp hlv with h | h
    · exact absurd h hne
    · exact h

theorem infoNce_neg_filter (N i : ℕ) (hN : 1 ≤ N) (hi : i < 2 * N) :
    (List.range (2 * N)).filter (fun j =>
        (((List.range N ++ List.range N).getD i 0 ==
          (List.range N ++ List.range N).getD j 0) == false) && (j != i)) =
      (List.range (2 * N)).filter (fun j => j != i && j != pairIdx N i) := by
  apply List.filter_congr
  intro j hj
  have hj' := List.mem_range.mp hj
  by_cases hji : j = i
  · subst hji; simp
  · by_cases hjp : j = pairIdx N i
    · subst hjp
      have hlv := (lv_eq_iff N i (pairIdx N i) hN hi
        (pairIdx_lt N i hi)).mpr (Or.inr rfl)
      have h1 : ((List.range N ++ List.range N).getD i 0 ==
          (List.range N ++ List.range N).getD (pairIdx N i) 0) = true :=
        beq_iff_eq.mpr hlv
      rw [h1]
      simp
    · have hlv : ¬ ((List.range N ++ List.range N).getD i 0 =
          (List.range N ++ List.range N).getD j 0) := by
        intro h
        rcases (lv_eq_iff N i j hN hi hj').mp h with h1 | h1
        · exact hji h1
        · exact hjp h1
      have h1 : ((List.range N ++ List.range N).getD i 0 ==
          (List.range N ++ List.range N).getD j 0) = false :=
        beq_eq_false_iff_ne.mpr hlv
      rw [h1]
      simp [hji, hjp]

/-- Master structure lemma for `info_nce_logits`: for a `2N`-row input,
row `i` of the logits is the similarity with the other view of the same
sample, followed by the similarities with all remaining rows in index
order, all divided by the temperature. -/
theorem infoNceLogits_rows (τ : ℝ) (features : List (List ℝ)) (N : ℕ)
    (hN : 1 ≤ N) (hf : features.length = 2 * N) :
    (infoNceLogits τ 2 features).1 =
      (List.range (2 * N)).map (fun i =>
        rawSim features i (pairIdx N i) / τ ::
          ((List.range (2 * N)).filter
              (fun j => j != i && j != pairIdx N i)).map
            (fun j => rawSim features i j / τ)) := by
  have hlvlen : (List.range N ++ List.range N).length = 2 * N := by
    simp [two_mul]
  simp only [infoNceLogits]
  rw [hf, infoNceLabelVec_two, eqMat_rows, simMat_rows, hf, hlvlen]
  rw [offDiag_map_range, offDiag_map_range, zip_map_range, List.map_map,
    List.map_map, zip_map_range, List.map_map]
  apply List.map_congr_left
  intro i hi
  have hi' := List.mem_range.mp hi
  simp only [Function.comp]
  rw [eraseIdx_map, eraseIdx_map, range_eraseIdx_eq_filter _ _ hi',
    booleanMask_map_map, booleanMask_map_map, List.filter_filter,
    List.filter_filter]
  rw [infoNce_pos_filter N i hN hi', infoNce_neg_filter N i hN hi']
  simp

theorem getD_mem {α : Type} (l : List α) (i : ℕ) (d : α)
    (h : i < l.length) : l.getD i d ∈ l := by
  unfold List.getD
  rw [List.get?_eq_getElem?, List.getElem?_eq_getElem h]
  simp [List.getElem_mem]

theorem rawSim_of_unit (features : List (List ℝ))
    (hunit : ∀ v ∈ features, sumSq v = 1) (i j : ℕ)
    (hi : i < features.length) (hj : j < features.length) :
    rawSim features i j =
      dotList (features.getD i []) (features.getD j []) := by
  unfold rawSim
  rw [l2normalize_of_unit _ (hunit _ (getD_mem features i [] hi)),
    l2normalize_of_unit _ (hunit _ (getD_mem features j [] hj))]

theorem length_filter_ne {α : Type} [DecidableEq α] :
    ∀ (l : List α) (a : α), l.Nodup → a ∈ l →
      (l.filter (fun y => y != a)).length = l.length - 1 := by
  intro l
  induction l with
  | nil => intro a _ ha; simp at ha
  | cons x t ih =>
      intro a hnd ha
      by_cases hxa : x = a
      · subst hxa
        have hnotin : x ∉ t := (List.nodup_cons.mp hnd).1
        rw [List.filter_cons]
        simp only [bne_self_eq_false, Bool.false_eq_true, if_false]
        have ht : t.filter (fun y => y != x) = t := by
          apply List.filter_eq_self.mpr
          intro b hb
          have hbx : b ≠ x := fun h => hnotin (h ▸ hb)
          simpa using hbx
        rw [ht]
        simp
      · have hat : a ∈ t := by
          rcases List.mem_cons.mp ha with h | h
          · exact absurd h.symm hxa
          · exact h
        have hbne : (x != a) = true := by simpa using hxa
        simp only [List.filter_cons, hbne, if_true, List.length_cons]
        rw [ih a (List.nodup_cons.mp hnd).2 hat]
        have hpos : 0 < t.length := List.length_pos_of_mem hat
        omega

theorem infoNce_neg_length (N i : ℕ) (hN : 1 ≤ N) (hi : i < 2 * N) :
    ((List.range (2 * N)).filter
        (fun j => j != i && j != pairIdx N i)).length = 2 * N - 2 := by
  have hsplit : (List.range (2 * N)).filter
      (fun j => j != i && j != pairIdx N i) =
      ((List.range (2 * N)).filter (fun j => j != pairIdx N i)).filter
        (fun j => j != i) := by
    rw [List.filter_filter]
  rw [hsplit]
  have hnd1 : ((List.range (2 * N)).filter
      (fun j => j != pairIdx N i)).Nodup :=
    List.Nodup.filter _ (List.nodup_range _)
  have hmem : i ∈ (List.range (2 * N)).filter
      (fun j => j != pairIdx N i) := by
    apply List.mem_filter.mpr
    refine ⟨List.mem_range.mpr hi, ?_⟩
    simpa using (pairIdx_ne N i hN hi).symm
  rw [length_filter_ne _ _ hnd1 hmem,
    length_filter_ne _ _ (List.nodup_range _)
      (List.mem_range.mpr (pairIdx_lt N i hi))]
  simp only [List.length_range]
  omega

/-- C5: for every input of `2N` unit-norm embeddings (`N ≥ 1` samples,
two views stacked so that rows `i` and `i + N` are views of the same
sample), `info_nce_logits` returns `2N` logit rows of length `2N - 1`
and an all-zero target vector of length `2N`; column 0 of row `i` is
the temperature-scaled cosine similarity between the two views of
sample `i`, and the remaining `2N - 2` columns are the similarities to
all other rows (in index order), the whole row divided by the
temperature. -/
theorem info_nce_structure (τ : ℝ) (features : List (List ℝ)) (N : ℕ)
    (hN : 1 ≤ N) (hf : features.length = 2 * N)
    (hunit : ∀ v ∈ features, sumSq v = 1) :
    (infoNceLogits τ 2 features).2 = List.replicate (2 * N) 0 ∧
    (infoNceLogits τ 2 features).1.length = 2 * N ∧
    (∀ i, i < 2 * N →
      ((infoNceLogits τ 2 features).1.getD i []).length = 2 * N - 1) ∧
    (∀ i, i < 2 * N →
      ((infoNceLogits τ 2 features).1.getD i []).headD 0 =
        cosineSim (features.getD i []) (features.getD (pairIdx N i) []) / τ) ∧
    (∀ i, i < 2 * N →
      (infoNceLogits τ 2 features).1.getD i [] =
        dotList (features.getD i []) (features.getD (pairIdx N i) []) / τ ::
          ((List.range (2 * N)).filter
              (fun j => j != i && j != pairIdx N i)).map
            (fun j =>
              dotList (features.getD i []) (features.getD j []) / τ)) := by
  have hrows := infoNceLogits_rows τ features N hN hf
  have hlen1 : (infoNceLogits τ 2 features).1.length = 2 * N := by
    rw [hrows, List.length_map, List.length_range]
  have htgt : (infoNceLogits τ 2 features).2 =
      List.replicate (infoNceLogits τ 2 features).1.length 0 := rfl
  have hrow : ∀ i, i < 2 * N →
      (infoNceLogits τ 2 features).1.getD i [] =
        rawSim features i (pairIdx N i) / τ ::
          ((List.range (2 * N)).filter
              (fun j => j != i && j != pairIdx N i)).map
            (fun j => rawSim features i j / τ) := by
    intro i hi
    rw [hrows, getD_map_lt _ _ i (by simpa using hi) _ 0, getD_range _ _ hi]
  have hrow' : ∀ i, i < 2 * N →
      (infoNceLogits τ 2 features).1.getD i [] =
        dotList (features.getD i []) (features.getD (pairIdx N i) []) / τ ::
          ((List.range (2 * N)).filter
              (fun j => j != i && j != pairIdx N i)).map
            (fun j =>
              dotList (features.getD i []) (features.getD j []) / τ) := by
    intro i hi
    rw [hrow i hi,
      rawSim_of_unit features hunit i (pairIdx N i) (by omega)
        (by rw [hf]; exact pairIdx_lt N i hi)]
    congr 1
    apply List.map_congr_left
    intro j hj
    have hj' := List.mem_range.mp (List.mem_of_mem_filter hj)
    rw [rawSim_of_unit features hunit i j (by omega) (by omega)]
  refine ⟨?_, hlen1, ?_, ?_, hrow'⟩
  · rw [htgt, hlen1]
  · intro i hi
    rw [hrow i hi, List.length_cons, List.length_map,
      infoNce_neg_length N i hN hi]
    omega
  · intro i hi
    rw [hrow' i hi, List.headD_cons,
      cosineSim_of_unit _ _ (hunit _ (getD_mem features i [] (by omega)))
        (hunit _ (getD_mem features (pairIdx N i) []
          (by rw [hf]; exact pairIdx_lt N i hi)))]

/-- C5 witness: two unit basis vectors as the two views of one sample
(`N = 1`): the hypotheses hold and the logits are a single-column
`2 × 1` matrix with zero targets. -/
theorem info_nce_structure_witness :
    (1 : ℕ) ≤ 1 ∧
    ([[1, 0], [0, 1]] : List (List ℝ)).length = 2 * 1 ∧
    (∀ v ∈ ([[1, 0], [0, 1]] : List (List ℝ)), sumSq v = 1) ∧
    (infoNceLogits 1 2 [[1, 0], [0, 1]]).2 = List.replicate (2 * 1) 0 := by
  have hunit : ∀ v ∈ ([[1, 0], [0, 1]] : List (List ℝ)), sumSq v = 1 := by
    intro v hv
    simp only [List.mem_cons, List.not_mem_nil, or_false] at hv
    rcases hv with rfl | rfl <;> norm_num [sumSq, dotList]
  exact ⟨le_refl 1, rfl, hunit,
    (info_nce_structure 1 [[1, 0], [0, 1]] 1 (le_refl 1) rfl hunit).1⟩

/-! ## C6 / C7 — supervised contrastive loss kernel `SupConLoss.forward`
(lines 166–255)

A tensor is a shape plus flat row-major data.  `forward` raises
`ValueError` (modelled as `Except.error`) on rank `< 3`, on both
`labels` and `mask` supplied, on a labels/batch length mismatch, and on
an unknown `contrast_mode`; otherwise it computes the loss from the
`B·V × B·V` tiled, diagonal-zeroed positive mask and the row-stabilized
logits.  `features.view(B, V, -1)` flattens trailing dimensions into
`D = prod shape[2:]`. -/

structure PTTensor where
  shape : List ℕ
  data : ℕ → ℝ

def exceptIsError {ε α : Type} : Except ε α → Bool
  | Except.error _ => true
  | Except.ok _ => false

/-- Line 204: `torch.eye(batch_size)`. -/
noncomputable def eyeMask (_B : ℕ) : ℕ → ℕ → ℝ := fun a b => if a = b then 1 else 0

/-- Line 209: `torch.eq(labels, labels.T)`. -/
noncomputable def labelsMask (ls : List ℤ) : ℕ → ℕ → ℝ :=
  fun a b => if ls.getD a 0 = ls.getD b 0 then 1 else 0

/-- Line 214: `torch.cat(torch.unbind(features, dim=1), dim=0)` — view
block `v` of sample `b` becomes row `v * B + b`. -/
noncomputable def contrastFeature (B V D : ℕ) (data : ℕ → ℝ) (i k : ℕ) : ℝ :=
  data (((i % B) * V + i / B) * D + k)

/-- Lines 225–227: `anchor · contrastᵀ / temperature`. -/
noncomputable def anchorDotContrast (τ : ℝ) (D : ℕ) (anchor contrast : ℕ → ℕ → ℝ)
    (i j : ℕ) : ℝ :=
  (∑ k in Finset.range D, anchor i k * contrast j k) / τ

/-- Line 230: row-wise maximum over the `n` contrast columns. -/
noncomputable def rowMaxF (n : ℕ) (f : ℕ → ℝ) : ℝ :=
  (List.range n).foldl (fun m j => max m (f j)) (f 0)

/-- Line 231: stabilized logits. -/
noncomputable def stabLogits (τ : ℝ) (D nCols : ℕ) (anchor contrast : ℕ → ℕ → ℝ)
    (i j : ℕ) : ℝ :=
  anchorDotContrast τ D anchor contrast i j -
    rowMaxF nCols (anchorDotContrast τ D anchor contrast i)

/-- Lines 236–241: ones with a zeroed diagonal. -/
noncomputable def logitsMaskAt (i j : ℕ) : ℝ := if j = i then 0 else 1

/-- Line 234: `mask.repeat(anchor_count, contrast_count)`. -/
noncomputable def tiledMask (B : ℕ) (mask : ℕ → ℕ → ℝ) (i j : ℕ) : ℝ := mask (i % B) (j % B)

/-- Line 242: `mask * logits_mask`. -/
noncomputable def posMask (B : ℕ) (mask : ℕ → ℕ → ℝ) (i j : ℕ) : ℝ :=
  tiledMask B mask i j * logitsMaskAt i j

/-- Line 249 denominator: `mask.sum(1)`. -/
noncomputable def posCount (B V : ℕ) (mask : ℕ → ℕ → ℝ) (i : ℕ) : ℝ :=
  ∑ j in Finset.range (B * V), posMask B mask i j

/-- Line 245 row sum: `(exp(logits) * logits_mask).sum(1)`. -/
noncomputable def expLogitsSum (B V : ℕ) (lg : ℕ → ℕ → ℝ) (i : ℕ) : ℝ :=
  ∑ j in Finset.range (B * V), Real.exp (lg i j) * logitsMaskAt i j

/-- Lines 246–249: mean positive log-probability of an anchor row. -/
noncomputable def meanLogProbPos (B V : ℕ) (mask : ℕ → ℕ → ℝ)
    (lg : ℕ → ℕ → ℝ) (i : ℕ) : ℝ :=
  (∑ j in Finset.range (B * V),
      posMask B mask i j * (lg i j - Real.log (expLogitsSum B V lg i))) /
    posCount B V mask i

/-- Lines 252–253: per-row loss and mean over all anchor rows. -/
noncomputable def supConCore (τ baseτ : ℝ) (B V D : ℕ) (data : ℕ → ℝ)
    (mask : ℕ → ℕ → ℝ) (anchor_count : ℕ) (anchor : ℕ → ℕ → ℝ) : ℝ :=
  (∑ i in Finset.range (B * anchor_count),
      -(τ / baseτ) *
        meanLogProbPos B V mask
          (stabLogits τ D (B * V) anchor (contrastFeature B V D data)) i) /
    (B * anchor_count)

/-- Lines 213–255 given a built `B × B` mask: anchor selection by
`contrast_mode`, then the loss; unknown modes raise. -/
noncomputable def supConWithMask (τ baseτ : ℝ) (mode : String) (B V D : ℕ)
    (data : ℕ → ℝ) (mask : ℕ → ℕ → ℝ) : Except String ℝ :=
  if mode = "one" then
    Except.ok (supConCore τ baseτ B V D data mask 1
      (fun i k => data ((i * V + 0) * D + k)))
  else if mode = "all" then
    Except.ok (supConCore τ baseτ B V D data mask V
      (contrastFeature B V D data))
  else Except.error ("Unknown mode: " ++ mode)

/-- Lines 194–222: rank check, label/mask validation and mask
construction. -/
noncomputable def supConForward (τ baseτ : ℝ) (mode : String)
    (features : PTTensor) (labels : Option (List ℤ))
    (mask0 : Option (ℕ → ℕ → ℝ)) : Except String ℝ :=
  if features.shape.length < 3 then
    Except.error "features needs to be at least 3 dimensions"
  else
    let B := features.shape.headD 0
    let V := features.shape.getD 1 0
    let D := (features.shape.drop 2).foldl (fun a b => a * b) 1
    match labels, mask0 with
    | some _, some _ => Except.error "Cannot define both labels and mask"
    | none, none => supConWithMask τ baseτ mode B V D features.data (eyeMask B)
    | some ls, none =>
        if ls.length ≠ B then
          Except.error "Num of labels does not match num of features"
        else supConWithMask τ baseτ mode B V D features.data (labelsMask ls)
    | none, some mk => supConWithMask τ baseτ mode B V D features.data mk

theorem posMask_nonneg (B : ℕ) (mask : ℕ → ℕ → ℝ)
    (hmask : ∀ a b, 0 ≤ mask a b) (i j : ℕ) : 0 ≤ posMask B mask i j := by
  unfold posMask tiledMask logitsMaskAt
  apply mul_nonneg (hmask _ _)
  split_ifs <;> norm_num

theorem labelsMask_nonneg (ls : List ℤ) (a b : ℕ) : 0 ≤ labelsMask ls a b := by
  unfold labelsMask
  split_ifs <;> norm_num

/-- C6: for the supervised contrastive kernel with batch size `B ≥ 2`
and `V ≥ 2` views in which every label class has at least 2 total
view-instances, each anchor row's positive count (the sum of the tiled,
diagonal-zeroed mask row) is `≥ 1`, the row sum of masked exponentials
(the log-denominator) is strictly positive, so neither division is by
zero, and the kernel returns a loss value rather than an error. -/
theorem supcon_positive_count_safe (τ baseτ : ℝ) (B V D : ℕ) (data : ℕ → ℝ)
    (ls : List ℤ) (hB : 2 ≤ B) (hV : 2 ≤ V) (hlen : ls.length = B)
    (_hcls : ∀ b, b < B → 2 ≤ V * ((Finset.range B).filter
        (fun b2 => ls.getD b2 0 = ls.getD b 0)).card) :
    (∀ i, i < B * V →
      1 ≤ posCount B V (labelsMask ls) i ∧
      ∀ lg : ℕ → ℕ → ℝ, 0 < expLogitsSum B V lg i) ∧
    ∃ r, supConForward τ baseτ "all" ⟨[B, V, D], data⟩ (some ls) none =
      Except.ok r := by
  have hBpos : 0 < B := by omega
  constructor
  · intro i hi
    obtain ⟨j₀, hj1, hj2, hj3⟩ : ∃ j₀, j₀ < B * V ∧ j₀ ≠ i ∧
        j₀ % B = i % B := by
      have hmod : i % B < B := Nat.mod_lt _ hBpos
      have h2B : B * 2 ≤ B * V := Nat.mul_le_mul_left B hV
      by_cases hc : i % B = i
      · refine ⟨i % B + B, by omega, by omega, ?_⟩
        rw [Nat.add_mod_right, Nat.mod_eq_of_lt hmod]
      · refine ⟨i % B, by omega, hc, Nat.mod_eq_of_lt hmod⟩
    have hterm : posMask B (labelsMask ls) i j₀ = 1 := by
      unfold posMask tiledMask logitsMaskAt labelsMask
      rw [hj3, if_pos rfl, if_neg hj2]
      norm_num
    constructor
    · unfold posCount
      calc (1 : ℝ) = posMask B (labelsMask ls) i j₀ := hterm.symm
        _ ≤ ∑ j in Finset.range (B * V), posMask B (labelsMask ls) i j := by
            apply Finset.single_le_sum
              (fun j _ => posMask_nonneg B _ (labelsMask_nonneg ls) i j)
            exact Finset.mem_range.mpr hj1
    · intro lg
      unfold expLogitsSum
      apply Finset.sum_pos'
      · intro j _
        unfold logitsMaskAt
        split_ifs with h
        · simp
        · simpa using le_of_lt (Real.exp_pos (lg i j))
      · refine ⟨j₀, Finset.mem_range.mpr hj1, ?_⟩
        unfold logitsMaskAt
        rw [if_neg hj2]
        simpa using Real.exp_pos (lg i j₀)
  · refine ⟨supConCore τ baseτ B V (List.foldl (fun a b => a * b) 1 [D])
      data (labelsMask ls) V
      (contrastFeature B V (List.foldl (fun a b => a * b) 1 [D]) data), ?_⟩
    unfold supConForward supConWithMask
    rw [if_neg (by simp)]
    simp only [List.headD_cons, List.getD_cons_succ, List.getD_cons_zero,
      List.drop_succ_cons, List.drop_zero]
    rw [if_neg (by simp [hlen]), if_neg (by decide)]
    simp

/-- C6 witness: a concrete `B = 2, V = 2, D = 1` batch with labels
`[0, 0]`: every hypothesis is checked and the theorem is applied. -/
theorem supcon_positive_count_safe_witness :
    (2 : ℕ) ≤ 2 ∧ ([0, 0] : List ℤ).length = 2 ∧
    (∀ b, b < 2 → 2 ≤ 2 * ((Finset.range 2).filter
        (fun b2 => ([0, 0] : List ℤ).getD b2 0 =
          ([0, 0] : List ℤ).getD b 0)).card) ∧
    ∃ r, supConForward 1 1 "all" ⟨[2, 2, 1], fun _ => 0⟩
        (some [0, 0]) none = Except.ok r := by
  have hcls : ∀ b, b < 2 → 2 ≤ 2 * ((Finset.range 2).filter
      (fun b2 => ([0, 0] : List ℤ).getD b2 0 =
        ([0, 0] : List ℤ).getD b 0)).card := by decide
  exact ⟨by decide, by decide, hcls,
    (supcon_positive_count_safe 1 1 2 2 1 (fun _ => 0) [0, 0]
      (by decide) (by decide) (by decide) hcls).2⟩

/-- C7: `SupConLoss.forward` raises `ValueError` exactly when the
features tensor has rank `< 3`, or both `labels` and `mask` are
supplied, or `labels` is supplied with length different from the batch
size `features.shape[0]`, or `contrast_mode` is neither `"one"` nor
`"all"`; and when neither `labels` nor `mask` is supplied (and the rank
check passes) it proceeds with the identity matrix as the
sample-equality mask instead of failing. -/
theorem supcon_value_error_iff (τ baseτ : ℝ) (mode : String)
    (features : PTTensor) (labels : Option (List ℤ))
    (mask0 : Option (ℕ → ℕ → ℝ)) :
    (exceptIsError (supConForward τ baseτ mode features labels mask0) = true ↔
      (features.shape.length < 3 ∨ (labels.isSome ∧ mask0.isSome) ∨
        (∃ ls, labels = some ls ∧ ls.length ≠ features.shape.headD 0) ∨
        (mode ≠ "one" ∧ mode ≠ "all"))) ∧
    (3 ≤ features.shape.length →
      supConForward τ baseτ mode features none none =
        supConWithMask τ baseτ mode (features.shape.headD 0)
          (features.shape.getD 1 0)
          ((features.shape.drop 2).foldl (fun a b => a * b) 1)
          features.data (eyeMask (features.shape.headD 0))) := by
  have hwm : ∀ (B V D : ℕ) (mk : ℕ → ℕ → ℝ),
      exceptIsError (supConWithMask τ baseτ mode B V D features.data mk)
        = true ↔ (mode ≠ "one" ∧ mode ≠ "all") := by
    intro B V D mk
    unfold supConWithMask
    by_cases h1 : mode = "one"
    · simp [h1, exceptIsError]
    · by_cases h2 : mode = "all"
      · simp [h1, h2, exceptIsError]
      · simp [h1, h2, exceptIsError]
  constructor
  · by_cases hrank : features.shape.length < 3
    · unfold supConForward
      simp [hrank, exceptIsError]
    · unfold supConForward
      rw [if_neg hrank]
      rcases labels with _ | ls <;> rcases mask0 with _ | mk
      · rw [hwm]
        simp [hrank]
      · rw [hwm]
        simp [hrank]
      · dsimp only
        by_cases hl : ls.length ≠ features.shape.headD 0
        · rw [if_pos hl]
          simp only [exceptIsError]
          constructor
          · intro _
            exact Or.inr (Or.inr (Or.inl ⟨ls, rfl, hl⟩))
          · intro _
            trivial
        · rw [if_neg hl, hwm]
          have hleq := not_not.mp hl
          constructor
          · intro hm
            exact Or.inr (Or.inr (Or.inr hm))
          · intro h
            rcases h with h | h | h | h
            · exact absurd h hrank
            · simp at h
            · rcases h with ⟨ls2, heq, hne⟩
              injection heq with heq2
              subst heq2
              exact absurd hleq hne
            · exact h
      · simp [exceptIsError, hrank]
  · intro h3
    unfold supConForward
    rw [if_neg (by omega)]

/-- C7 witness: a rank-1 tensor is rejected, and a rank-3 tensor with
neither labels nor mask proceeds with the identity mask. -/
theorem supcon_value_error_iff_witness :
    exceptIsError (supConForward 1 1 "all" ⟨[2], fun _ => 0⟩ none none)
      = true ∧
    supConForward 1 1 "all" ⟨[2, 2, 1], fun _ => 0⟩ none none =
      supConWithMask 1 1 "all" 2 2
        (([1] : List ℕ).foldl (fun a b => a * b) 1) (fun _ => 0)
        (eyeMask 2) := by
  constructor
  · exact (supcon_value_error_iff 1 1 "all" ⟨[2], fun _ => 0⟩
      none none).1.mpr (Or.inl (by decide))
  · exact (supcon_value_error_iff 1 1 "all" ⟨[2, 2, 1], fun _ => 0⟩
      none none).2 (by decide)

/-! ## C8 — per-batch total loss (lines 104–117)

`contrastive_loss` is the cross-entropy of the InfoNCE logits over the
configured contrastive input set; if the stage's supervised-contrastive
weight `w = sup_con_weight[stage_i]` is positive, the labelled rows of
both views are stacked into a `B' × 2 × D` tensor and fed to the
`SupConLoss()` kernel (default temperature `0.07`, mode `"all"`, base
temperature `0.07`) with their class labels, else that term is the
constant `0`; the total is `(1 - w) * contrastive + w * sup_con`. -/

/-- `torch.nn.CrossEntropyLoss()` with integer targets and mean
reduction: per row, `log-sum-exp(row) - row[target]`, averaged. -/
noncomputable def crossEntropyLoss (logits : List (List ℝ))
    (targets : List ℕ) : ℝ :=
  (((logits.zip targets).map (fun rt =>
      Real.log ((rt.1.map Real.exp).sum) - rt.1.getD rt.2 0)).sum) /
    logits.length

/-- Lines 109–110: the labelled rows of view 1 and view 2. -/
def supConViewFeats (features : List (List ℝ)) (mask_lab : List Bool) :
    List (List ℝ) × List (List ℝ) :=
  (booleanMask (chunk2 features).1 mask_lab true,
   booleanMask (chunk2 features).2 mask_lab true)

/-- Line 110: `torch.cat([f1.unsqueeze(1), f2.unsqueeze(1)], dim=1)` as
a row-major `B' × 2 × D` tensor. -/
noncomputable def supConInput (features : List (List ℝ))
    (mask_lab : List Bool) (D : ℕ) : PTTensor :=
  ⟨[(supConViewFeats features mask_lab).1.length, 2, D], fun idx =>
    if idx / D % 2 = 0 then
      ((supConViewFeats features mask_lab).1.getD (idx / (2 * D)) []).getD
        (idx % D) 0
    else
      ((supConViewFeats features mask_lab).2.getD (idx / (2 * D)) []).getD
        (idx % D) 0⟩

structure FitArgs where
  contrast_unlabel_only : Bool
  sup_con_weight : List ℝ
  temperature : ℝ
  n_views : ℕ

/-- Lines 104–117: one batch's total loss (the supervised kernel can in
principle signal an error, which would propagate as a raised
exception). -/
noncomputable def batchLoss (args : FitArgs) (stage_i : ℕ)
    (features : List (List ℝ)) (mask_lab : List Bool)
    (class_labels : List ℤ) : Except String ℝ :=
  let nce := infoNceLogits args.temperature args.n_views
    (conFeats args.contrast_unlabel_only features mask_lab)
  let contrastive_loss := crossEntropyLoss nce.1 nce.2
  let w := args.sup_con_weight.getD stage_i 0
  if 0 < w then
    match supConForward (7 / 100) (7 / 100) "all"
        (supConInput features mask_lab (features.headD []).length)
        (some (booleanMask class_labels mask_lab true)) none with
    | Except.error e => Except.error e
    | Except.ok s => Except.ok ((1 - w) * contrastive_loss + w * s)
  else Except.ok ((1 - w) * contrastive_loss + w * 0)

theorem booleanMask_length {α : Type} (d : α) (xs : List α) (m : List Bool)
    (b : Bool) (h : xs.length = m.length) :
    (booleanMask xs m b).length = (idxWhere m b).length := by
  rw [booleanMask_eq_map_idxWhere d m xs h b, List.length_map]

theorem booleanMask_chunk_char {α : Type} (d : α) (features : List α)
    (mask_lab : List Bool) (N : ℕ) (b : Bool) (hf : features.length = 2 * N)
    (hm : mask_lab.length = N) :
    booleanMask (chunk2 features).1 mask_lab b =
      (idxWhere mask_lab b).map (fun i => features.getD i d) ∧
    booleanMask (chunk2 features).2 mask_lab b =
      (idxWhere mask_lab b).map (fun i => features.getD (N + i) d) := by
  unfold chunk2
  have hhalf : features.length / 2 = N := by
    rw [hf]
    omega
  rw [hhalf]
  have hlt : (features.take N).length = mask_lab.length := by
    rw [List.length_take, hf, hm]
    omega
  have hld : (features.drop N).length = mask_lab.length := by
    rw [List.length_drop, hf, hm]
    omega
  constructor
  · rw [booleanMask_eq_map_idxWhere d mask_lab (features.take N) hlt b]
    apply List.map_congr_left
    intro i hi
    have hiN : i < N := hm ▸ mem_idxWhere_lt mask_lab b i hi
    unfold List.getD
    rw [List.get?_eq_getElem?, List.get?_eq_getElem?,
      List.getElem?_take_of_lt hiN]
  · rw [booleanMask_eq_map_idxWhere d mask_lab (features.drop N) hld b]
    apply List.map_congr_left
    intro i hi
    unfold List.getD
    rw [List.get?_eq_getElem?, List.get?_eq_getElem?, List.getElem?_drop]

/-- C8: in every batch step, writing `w = sup_con_weight[stage_i]` and
`unsup` for the cross-entropy of the InfoNCE logits over the configured
input set, the total loss is `(1 - w) * unsup + w * sup`, where the
supervised term `sup` is computed by the supervised-contrastive kernel
over exactly the labelled samples of both views — stacked as 2-view
groups, against their class labels — when `w > 0`, and is the constant
`0` otherwise. -/
theorem batch_loss_composition (args : FitArgs) (stage_i N : ℕ)
    (features : List (List ℝ)) (mask_lab : List Bool)
    (class_labels : List ℤ) (hf : features.length = 2 * N)
    (hm : mask_lab.length = N) (hcl : class_labels.length = N) :
    (¬ 0 < args.sup_con_weight.getD stage_i 0 →
      batchLoss args stage_i features mask_lab class_labels =
        Except.ok ((1 - args.sup_con_weight.getD stage_i 0) *
          crossEntropyLoss
            (infoNceLogits args.temperature args.n_views
              (conFeats args.contrast_unlabel_only features mask_lab)).1
            (infoNceLogits args.temperature args.n_views
              (conFeats args.contrast_unlabel_only features mask_lab)).2 +
          args.sup_con_weight.getD stage_i 0 * 0)) ∧
    (0 < args.sup_con_weight.getD stage_i 0 →
      ∃ s, supConForward (7 / 100) (7 / 100) "all"
          (supConInput features mask_lab (features.headD []).length)
          (some (booleanMask class_labels mask_lab true)) none =
            Except.ok s ∧
        batchLoss args stage_i features mask_lab class_labels =
          Except.ok ((1 - args.sup_con_weight.getD stage_i 0) *
            crossEntropyLoss
              (infoNceLogits args.temperature args.n_views
                (conFeats args.contrast_unlabel_only features mask_lab)).1
              (infoNceLogits args.temperature args.n_views
                (conFeats args.contrast_unlabel_only features mask_lab)).2 +
            args.sup_con_weight.getD stage_i 0 * s)) ∧
    (supConViewFeats features mask_lab).1 =
      (idxWhere mask_lab true).map (fun i => features.getD i []) ∧
    (supConViewFeats features mask_lab).2 =
      (idxWhere mask_lab true).map (fun i => features.getD (N + i) []) ∧
    booleanMask class_labels mask_lab true =
      (idxWhere mask_lab true).map (fun i => class_labels.getD i 0) ∧
    (supConInput features mask_lab (features.headD []).length).shape =
      [(idxWhere mask_lab true).length, 2, (features.headD []).length] := by
  have hchar := booleanMask_chunk_char ([] : List ℝ) features mask_lab N
    true hf hm
  have hlab : booleanMask class_labels mask_lab true =
      (idxWhere mask_lab true).map (fun i => class_labels.getD i 0) :=
    booleanMask_eq_map_idxWhere 0 mask_lab class_labels
      (by rw [hcl, hm]) true
  have hf1len : (supConViewFeats features mask_lab).1.length =
      (idxWhere mask_lab true).length := by
    unfold supConViewFeats chunk2
    apply booleanMask_length ([] : List ℝ)
    rw [List.length_take, hf, hm]
    omega
  have hlablen : (booleanMask class_labels mask_lab true).length =
      (idxWhere mask_lab true).length := by
    apply booleanMask_length (0 : ℤ)
    rw [hcl, hm]
  have herr : exceptIsError (supConForward (7 / 100) (7 / 100) "all"
      (supConInput features mask_lab (features.headD []).length)
      (some (booleanMask class_labels mask_lab true)) none) = false := by
    unfold supConForward supConWithMask supConInput
    rw [if_neg (by simp)]
    simp only [List.headD_cons, List.getD_cons_succ, List.getD_cons_zero,
      List.drop_succ_cons, List.drop_zero]
    rw [if_neg (by rw [hlablen, hf1len]; exact fun h => h rfl),
      if_neg (by decide), if_pos trivial]
    rfl
  have hok : ∃ s, supConForward (7 / 100) (7 / 100) "all"
      (supConInput features mask_lab (features.headD []).length)
      (some (booleanMask class_labels mask_lab true)) none =
        Except.ok s := by
    cases hcase : supConForward (7 / 100) (7 / 100) "all"
        (supConInput features mask_lab (features.headD []).length)
        (some (booleanMask class_labels mask_lab true)) none with
    | error e =>
        rw [hcase] at herr
        exact absurd herr (by simp [exceptIsError])
    | ok s => exact ⟨s, rfl⟩
  refine ⟨?_, ?_, hchar.1, hchar.2, hlab, ?_⟩
  · intro hw
    unfold batchLoss
    rw [if_neg hw]
  · intro hw
    rcases hok with ⟨s, hs⟩
    refine ⟨s, hs, ?_⟩
    unfold batchLoss
    rw [if_pos hw, hs]
  · unfold supConInput
    rw [hf1len]

/-- C8 witness: a two-sample batch (`N = 1`) with one labelled sample
and a positive stage weight: the kernel is invoked on the labelled
stack and the total loss is the stated affine combination. -/
theorem batch_loss_composition_witness :
    ([[1], [1]] : List (List ℝ)).length = 2 * 1 ∧
    [true].length = 1 ∧ ([0] : List ℤ).length = 1 ∧
    (0 < (FitArgs.mk false [1/2] 1 2).sup_con_weight.getD 0 0 →
      ∃ s, supConForward (7 / 100) (7 / 100) "all"
          (supConInput [[1], [1]] [true] (([[1], [1]] :
            List (List ℝ)).headD []).length)
          (some (booleanMask ([0] : List ℤ) [true] true)) none =
            Except.ok s ∧
        batchLoss (FitArgs.mk false [1/2] 1 2) 0 [[1], [1]] [true] [0] =
          Except.ok ((1 - (FitArgs.mk false [1/2] 1 2).sup_con_weight.getD
              0 0) *
            crossEntropyLoss
              (infoNceLogits (FitArgs.mk false [1/2] 1 2).temperature
                (FitArgs.mk false [1/2] 1 2).n_views
                (conFeats (FitArgs.mk false [1/2] 1 2).contrast_unlabel_only
                  [[1], [1]] [true])).1
              (infoNceLogits (FitArgs.mk false [1/2] 1 2).temperature
                (FitArgs.mk false [1/2] 1 2).n_views
                (conFeats (FitArgs.mk false [1/2] 1 2).contrast_unlabel_only
                  [[1], [1]] [true])).2 +
            (FitArgs.mk false [1/2] 1 2).sup_con_weight.getD 0 0 * s)) :=
  ⟨rfl, rfl, rfl,
    (batch_loss_composition (FitArgs.mk false [1/2] 1 2) 0 1
      [[1], [1]] [true] [0] rfl rfl rfl).2.1⟩

end PromptCCD
